import Mathlib

/-!
Verification of the simple-ci provider adapter subsystem.

The Go source is shallowly embedded: strings are `List Char`, Go `int` /
`int64` values are `Int` (the programs never overflow in the scenarios the
spec quantifies over), `time.Time` values are unix seconds (`Int`),
fallible functions return `Option` / `Except`, and the network is an
explicit oracle passed to each function.  Every definition mirrors the
corresponding Go function from the repository; names follow the source.
-/

namespace SimpleCI

/-! ## Decimal digits and Go `strconv.Atoi`
Embeds the digit handling of `strconv.Atoi` (sign then non-empty digit
string) and of `fmt.Sprintf "%d"` (canonical decimal printing). -/

/-- Character for a single decimal digit, as printed by `%d`. -/
def digitChar : Nat → Char
  | 0 => '0' | 1 => '1' | 2 => '2' | 3 => '3' | 4 => '4'
  | 5 => '5' | 6 => '6' | 7 => '7' | 8 => '8' | 9 => '9'
  | _ => '*'

/-- Numeric value of a decimal digit character, `none` for non-digits
(the digit test `'0' <= c && c <= '9'` of `strconv.Atoi`). -/
def digitVal? (c : Char) : Option Nat :=
  if '0' ≤ c ∧ c ≤ '9' then some (c.toNat - '0'.toNat) else none

/-- Accumulating decimal scan: fails on the first non-digit. -/
def parseDigitsAux : Nat → List Char → Option Nat
  | acc, [] => some acc
  | acc, c :: cs =>
    match digitVal? c with
    | some d => parseDigitsAux (acc * 10 + d) cs
    | none => none

/-- Parses a non-empty all-digit string to its value (the digit part of
`strconv.Atoi`). -/
def parseDigits (s : List Char) : Option Nat :=
  if s.isEmpty then none else parseDigitsAux 0 s

/-- Signed 64-bit range test: `strconv.Atoi` is `ParseInt(s, 10, 0)` with
`bitSize 0` meaning the platform `int`, 64 bits here, so the accepted
values are exactly `-2^63 .. 2^63 - 1`. -/
def inInt64Range (v : Int) : Bool :=
  decide (-(2 ^ 63) ≤ v) && decide (v ≤ 2 ^ 63 - 1)

/-- Result clamping of `strconv.Atoi`: a syntactically valid literal
whose value falls outside the signed 64-bit range is still an error
(`ErrRange`). -/
def rangeChecked (v : Int) : Option Int :=
  if inInt64Range v then some v else none

/-- Embedding of Go `strconv.Atoi`: an optional sign followed by a
non-empty run of decimal digits, with the value required to fit a signed
64-bit `int` (out-of-range input is the `ErrRange` error); anything else
is a syntax error.  Either error is `none`. -/
def goAtoi (s : List Char) : Option Int :=
  match s with
  | [] => none
  | c :: cs =>
    if c = '+' then (parseDigits cs).bind (fun n => rangeChecked (Int.ofNat n))
    else if c = '-' then
      (parseDigits cs).bind (fun n => rangeChecked (-Int.ofNat n))
    else (parseDigits (c :: cs)).bind (fun n => rangeChecked (Int.ofNat n))

/-- Canonical decimal expansion of a natural number, fueled so that the
definition is structural (fuel `n + 1` always suffices). -/
def natToCharsAux : Nat → Nat → List Char
  | 0, _ => []
  | fuel + 1, n =>
    if n < 10 then [digitChar n]
    else natToCharsAux fuel (n / 10) ++ [digitChar (n % 10)]

/-- Canonical decimal form of a natural number, as `fmt.Sprintf "%d"`
prints it. -/
def natToChars (n : Nat) : List Char :=
  natToCharsAux (n + 1) n

/-- Decimal form of an integer, as `fmt.Sprintf "%d"` prints it. -/
def intToChars : Int → List Char
  | Int.ofNat n => natToChars n
  | Int.negSucc n => '-' :: natToChars (n + 1)

/-! ## Go `strings.Split` on `":"` and its inverse -/

/-- Embedding of Go `strings.Split(s, ":")`: the (always non-empty) list
of chunks of `s` between colons. -/
def splitOnColon : List Char → List (List Char)
  | [] => [[]]
  | c :: cs =>
    match splitOnColon cs with
    | [] => []
    | p :: ps => if c = ':' then [] :: p :: ps else (c :: p) :: ps

/-- Joins chunks with a colon, the inverse of `splitOnColon`. -/
def joinColon : List (List Char) → List Char
  | [] => []
  | [x] => x
  | x :: xs => x ++ ':' :: joinColon xs

theorem splitOnColon_ne_nil (s : List Char) : splitOnColon s ≠ [] := by
  induction s with
  | nil => simp [splitOnColon]
  | cons c cs ih =>
    cases h : splitOnColon cs with
    | nil => exact absurd h ih
    | cons p ps =>
      simp only [splitOnColon, h]
      split <;> simp

theorem joinColon_splitOnColon (s : List Char) :
    joinColon (splitOnColon s) = s := by
  induction s with
  | nil => simp [splitOnColon, joinColon]
  | cons c cs ih =>
    cases h : splitOnColon cs with
    | nil => exact absurd h (splitOnColon_ne_nil cs)
    | cons p ps =>
      rw [h] at ih
      by_cases hc : c = ':'
      · subst hc
        simp only [splitOnColon, h, if_pos rfl, joinColon, List.nil_append, ih]
      · simp only [splitOnColon, h, if_neg hc]
        cases ps <;> simpa [joinColon] using ih

theorem splitOnColon_no_colon {s : List Char} (h : ':' ∉ s) :
    splitOnColon s = [s] := by
  induction s with
  | nil => rfl
  | cons c cs ih =>
    simp only [List.mem_cons, not_or] at h
    have hne : ¬c = ':' := fun hc => h.1 hc.symm
    simp only [splitOnColon, ih h.2, if_neg hne]

theorem splitOnColon_append {s : List Char} (t : List Char) (h : ':' ∉ s) :
    splitOnColon (s ++ ':' :: t) = s :: splitOnColon t := by
  induction s with
  | nil =>
    cases ht : splitOnColon t with
    | nil => exact absurd ht (splitOnColon_ne_nil t)
    | cons p ps => simp [splitOnColon, ht]
  | cons c cs ih =>
    simp only [List.mem_cons, not_or] at h
    have hne : ¬c = ':' := fun hc => h.1 hc.symm
    have ih' := ih h.2
    simp only [List.cons_append, splitOnColon, List.append_eq, ih', if_neg hne]

theorem mem_splitOnColon_no_colon {s : List Char} {p : List Char}
    (hp : p ∈ splitOnColon s) : ':' ∉ p := by
  induction s generalizing p with
  | nil =>
    simp only [splitOnColon, List.mem_singleton] at hp
    subst hp
    exact List.not_mem_nil ':'
  | cons c cs ih =>
    cases h : splitOnColon cs with
    | nil => exact absurd h (splitOnColon_ne_nil cs)
    | cons q qs =>
      simp only [splitOnColon, h] at hp
      by_cases hc : c = ':'
      · rw [if_pos hc] at hp
        rcases List.mem_cons.mp hp with h1 | h1
        · subst h1
          exact List.not_mem_nil ':'
        · exact ih (by rw [h]; exact h1)
      · rw [if_neg hc] at hp
        rcases List.mem_cons.mp hp with h1 | h1
        · subst h1
          intro hm
          rcases List.mem_cons.mp hm with h2 | h2
          · exact hc h2.symm
          · exact ih (by rw [h]; exact List.mem_cons_self q qs) h2
        · exact ih (by rw [h]; exact List.mem_cons_of_mem q h1)

/-! ## Facts about decimal printing and scanning -/

theorem digitVal?_digitChar {d : Nat} (hd : d < 10) :
    digitVal? (digitChar d) = some d := by
  interval_cases d <;> rfl

theorem digitChar_not_special {d : Nat} (hd : d < 10) :
    digitChar d ≠ '+' ∧ digitChar d ≠ '-' ∧ digitChar d ≠ ':' := by
  interval_cases d <;> exact ⟨by decide, by decide, by decide⟩

theorem parseDigitsAux_append (acc : Nat) (xs ys : List Char) :
    parseDigitsAux acc (xs ++ ys) =
      match parseDigitsAux acc xs with
      | some a => parseDigitsAux a ys
      | none => none := by
  induction xs generalizing acc with
  | nil => simp [parseDigitsAux]
  | cons c cs ih =>
    simp only [List.cons_append, parseDigitsAux]
    cases digitVal? c with
    | none => rfl
    | some d => exact ih (acc * 10 + d)

theorem natToCharsAux_ne_nil {fuel n : Nat} (hf : 0 < fuel) :
    natToCharsAux fuel n ≠ [] := by
  cases fuel with
  | zero => omega
  | succ f =>
    simp only [natToCharsAux]
    split <;> simp

theorem mem_natToCharsAux {fuel n : Nat} {c : Char}
    (hc : c ∈ natToCharsAux fuel n) : ∃ d, d < 10 ∧ c = digitChar d := by
  induction fuel generalizing n with
  | zero => simp [natToCharsAux] at hc
  | succ f ih =>
    simp only [natToCharsAux] at hc
    by_cases h : n < 10
    · rw [if_pos h] at hc
      simp only [List.mem_singleton] at hc
      exact ⟨n, h, hc⟩
    · rw [if_neg h] at hc
      rcases List.mem_append.mp hc with h1 | h1
      · exact ih h1
      · simp only [List.mem_singleton] at h1
        exact ⟨n % 10, Nat.mod_lt n (by omega), h1⟩

theorem parseDigitsAux_natToCharsAux {fuel : Nat} :
    ∀ {n : Nat}, n < fuel → ∀ acc,
      parseDigitsAux acc (natToCharsAux fuel n) =
        some (acc * 10 ^ (natToCharsAux fuel n).length + n) := by
  induction fuel with
  | zero => intro n hn; omega
  | succ f ih =>
    intro n hn acc
    by_cases h : n < 10
    · simp only [natToCharsAux, if_pos h, parseDigitsAux, digitVal?_digitChar h,
        List.length_singleton, pow_one]
    · have hdiv10 : 10 * (n / 10) ≤ n := Nat.mul_div_le n 10
      have hone : 1 ≤ n / 10 := (Nat.one_le_div_iff (by omega)).mpr (by omega)
      have hlt : n / 10 < f := by omega
      simp only [natToCharsAux, if_neg h]
      rw [parseDigitsAux_append, ih hlt acc]
      simp only [parseDigitsAux, digitVal?_digitChar (Nat.mod_lt n (by omega) :
        n % 10 < 10), List.length_append, List.length_singleton]
      congr 1
      have := Nat.div_add_mod n 10
      ring_nf
      omega

theorem parseDigits_natToChars (n : Nat) :
    parseDigits (natToChars n) = some n := by
  have hne := natToCharsAux_ne_nil (n := n) (Nat.succ_pos n)
  simp only [natToChars, parseDigits, List.isEmpty_iff, if_neg hne]
  rw [parseDigitsAux_natToCharsAux (Nat.lt_succ_self n) 0]
  simp

theorem natToChars_head_digit (n : Nat) :
    ∃ d cs, d < 10 ∧ natToChars n = digitChar d :: cs := by
  cases h : natToChars n with
  | nil => exact absurd h (natToCharsAux_ne_nil (Nat.succ_pos n))
  | cons c cs =>
    have hc : c ∈ natToCharsAux (n + 1) n := by
      rw [show natToCharsAux (n + 1) n = natToChars n from rfl, h]
      exact List.mem_cons_self c cs
    obtain ⟨d, hd, hcd⟩ := mem_natToCharsAux hc
    exact ⟨d, cs, hd, by rw [hcd]⟩

theorem goAtoi_natToChars (n : Nat) (hn : n < 2 ^ 63) :
    goAtoi (natToChars n) = some (n : Int) := by
  obtain ⟨d, cs, hd, heq⟩ := natToChars_head_digit n
  obtain ⟨hplus, hminus, _⟩ := digitChar_not_special hd
  rw [heq, goAtoi, if_neg hplus, if_neg hminus, ← heq, parseDigits_natToChars]
  have hr : inInt64Range (n : Int) = true := by
    simp only [inInt64Range, Bool.and_eq_true, decide_eq_true_eq]
    omega
  simp [rangeChecked, hr]

theorem colon_not_mem_natToChars (n : Nat) : ':' ∉ natToChars n := by
  intro hc
  obtain ⟨d, hd, hcd⟩ := mem_natToCharsAux hc
  exact (digitChar_not_special hd).2.2 hcd.symm

/-! ## Reference Codec (`internal/provider/concourse/adapter.go`)
`ConcourseRunRef` and the encode/decode pair `ConcourseRunRef.ID` /
`ParseRunRef`. -/

/-- Embedding of the Go struct `ConcourseRunRef`. -/
structure ConcourseRunRef where
  team : List Char
  pipeline : List Char
  job : List Char
  buildID : Int
  buildName : List Char
  deriving DecidableEq, Repr

/-- Embedding of `ConcourseRunRef.ID()`: joins the four fields with `:`
(`fmt.Sprintf`). -/
def ConcourseRunRef.ID (c : ConcourseRunRef) : List Char :=
  c.team ++ ':' :: (c.pipeline ++ ':' :: (c.job ++ ':' :: intToChars c.buildID))

/-- Embedding of `ParseRunRef`: split on `:`, require exactly four parts,
and run `strconv.Atoi` on the fourth.  `none` is the malformed-reference
error. -/
def ParseRunRef (runID : List Char) : Option ConcourseRunRef :=
  match splitOnColon runID with
  | [t, p, j, bs] =>
    match goAtoi bs with
    | some b => some ⟨t, p, j, b, []⟩
    | none => none
  | _ => none

/-! ## Spec-side characterisations of the codec input language -/

/-- Decimal digit test, spec side. -/
def isDigitChar (c : Char) : Bool :=
  (digitVal? c).isSome

/-- Follows the observed acceptance language of `strconv.Atoi`, stated
independently of the scanner: an optional sign followed by a non-empty
run of decimal digits. -/
def isGoIntegerLit (s : List Char) : Bool :=
  match s with
  | [] => false
  | c :: cs =>
    if c = '+' || c = '-' then !cs.isEmpty && cs.all isDigitChar
    else (c :: cs).all isDigitChar

/-- Follows the spec's words for a well-formed public run identifier:
exactly four colon-delimited segments, all non-empty, the fourth a
non-negative (unsigned) decimal integer. -/
def specWellFormedRunID (s : List Char) : Bool :=
  match splitOnColon s with
  | [t, p, j, d] =>
    !t.isEmpty && !p.isEmpty && !j.isEmpty && !d.isEmpty && d.all isDigitChar
  | _ => false

theorem parseDigitsAux_isSome (s : List Char) :
    ∀ acc, (parseDigitsAux acc s).isSome = s.all isDigitChar := by
  induction s with
  | nil => intro acc; rfl
  | cons c cs ih =>
    intro acc
    simp only [parseDigitsAux, List.all_cons, isDigitChar]
    cases h : digitVal? c with
    | none => simp [h]
    | some d => simp [h, ih]

theorem isSome_parseDigits (s : List Char) :
    (parseDigits s).isSome = (!s.isEmpty && s.all isDigitChar) := by
  cases s with
  | nil => rfl
  | cons c cs =>
    simp [parseDigits, parseDigitsAux_isSome]

/-- Accumulating spec-side value of an all-digit string. -/
def digitsValAux : Nat → List Char → Nat
  | acc, [] => acc
  | acc, c :: cs => digitsValAux (acc * 10 + (digitVal? c).getD 0) cs

/-- Spec-side value of an all-digit string. -/
def digitsVal (s : List Char) : Nat :=
  digitsValAux 0 s

/-- Spec-side value of an optionally signed decimal literal (meaningful
when `isGoIntegerLit` holds). -/
def litValue (d : List Char) : Int :=
  match d with
  | [] => 0
  | c :: cs =>
    if c = '-' then -Int.ofNat (digitsVal cs)
    else if c = '+' then Int.ofNat (digitsVal cs)
    else Int.ofNat (digitsVal (c :: cs))

theorem rangeChecked_isSome (v : Int) :
    (rangeChecked v).isSome = inInt64Range v := by
  rw [rangeChecked]
  split <;> simp_all

theorem parseDigitsAux_digitsValAux {s : List Char}
    (h : s.all isDigitChar = true) :
    ∀ acc, parseDigitsAux acc s = some (digitsValAux acc s) := by
  induction s with
  | nil => intro acc; rfl
  | cons c cs ih =>
    intro acc
    simp only [List.all_cons, Bool.and_eq_true] at h
    obtain ⟨d, hd⟩ :=
      Option.isSome_iff_exists.mp (h.1 : (digitVal? c).isSome = true)
    simp only [parseDigitsAux, digitsValAux, hd, Option.getD_some]
    exact ih h.2 (acc * 10 + d)

theorem parseDigits_of_all {s : List Char} (hne : ¬s.isEmpty = true)
    (h : s.all isDigitChar = true) : parseDigits s = some (digitsVal s) := by
  rw [parseDigits, if_neg hne]
  exact parseDigitsAux_digitsValAux h 0

theorem parseDigits_of_not_all {s : List Char}
    (h : s.all isDigitChar = false) : parseDigits s = none := by
  cases hp : parseDigits s with
  | none => rfl
  | some v =>
    have hs := isSome_parseDigits s
    rw [hp, h] at hs
    simp at hs

/-- Characterisation of the `strconv.Atoi` acceptance language: an
optionally signed non-empty digit run whose value fits a signed 64-bit
`int`. -/
theorem goAtoi_isSome_iff (s : List Char) :
    (goAtoi s).isSome = (isGoIntegerLit s && inInt64Range (litValue s)) := by
  cases s with
  | nil => rfl
  | cons c cs =>
    by_cases hplus : c = '+'
    · subst hplus
      cases cs with
      | nil => rfl
      | cons c2 cs2 =>
        by_cases hall : (c2 :: cs2).all isDigitChar = true
        · rw [goAtoi, if_pos rfl, parseDigits_of_all (by simp) hall]
          simp [rangeChecked_isSome, isGoIntegerLit, litValue, hall]
        · have hall' : (c2 :: cs2).all isDigitChar = false := by
            simpa using hall
          rw [goAtoi, if_pos rfl, parseDigits_of_not_all hall']
          simp [isGoIntegerLit, litValue, hall']
    · by_cases hminus : c = '-'
      · subst hminus
        cases cs with
        | nil => rfl
        | cons c2 cs2 =>
          by_cases hall : (c2 :: cs2).all isDigitChar = true
          · rw [goAtoi, if_neg hplus, if_pos rfl,
              parseDigits_of_all (by simp) hall]
            simp [rangeChecked_isSome, isGoIntegerLit, litValue, hall]
          · have hall' : (c2 :: cs2).all isDigitChar = false := by
              simpa using hall
            rw [goAtoi, if_neg hplus, if_pos rfl,
              parseDigits_of_not_all hall']
            simp [isGoIntegerLit, litValue, hall']
      · by_cases hall : (c :: cs).all isDigitChar = true
        · rw [goAtoi, if_neg hplus, if_neg hminus,
            parseDigits_of_all (by simp) hall]
          simp [rangeChecked_isSome, isGoIntegerLit, litValue, hall,
            hplus, hminus]
        · have hall' : (c :: cs).all isDigitChar = false := by
            simpa using hall
          rw [goAtoi, if_neg hplus, if_neg hminus,
            parseDigits_of_not_all hall']
          simp [isGoIntegerLit, litValue, hall', hplus, hminus]

theorem ParseRunRef_eq_four {s t p j d : List Char}
    (h : splitOnColon s = [t, p, j, d]) :
    ParseRunRef s =
      match goAtoi d with
      | some b => some ⟨t, p, j, b, []⟩
      | none => none := by
  unfold ParseRunRef
  rw [h]

/-- C1 (amended) — `ParseRunRef` fails with the malformed-reference error
exactly when the string does not split on `:` into four components whose
fourth is an optionally signed non-empty decimal integer literal whose
value fits a signed 64-bit `int` (`strconv.Atoi` rejects out-of-range
values with `ErrRange`).  Empty components among the first three and a
signed (in particular negative) fourth component are accepted. -/
theorem ParseRunRef_none_iff (s : List Char) :
    ParseRunRef s = none ↔
      ¬∃ t p j d, splitOnColon s = [t, p, j, d] ∧
        isGoIntegerLit d = true ∧ inInt64Range (litValue d) = true := by
  rcases h : splitOnColon s with _ | ⟨t, _ | ⟨p, _ | ⟨j, _ | ⟨d, _ | ⟨e, rest⟩⟩⟩⟩⟩
  · exact absurd h (splitOnColon_ne_nil s)
  · have hP : ParseRunRef s = none := by unfold ParseRunRef; rw [h]
    simp [hP, h]
  · have hP : ParseRunRef s = none := by unfold ParseRunRef; rw [h]
    simp [hP, h]
  · have hP : ParseRunRef s = none := by unfold ParseRunRef; rw [h]
    simp [hP, h]
  · have hlit := goAtoi_isSome_iff d
    rw [ParseRunRef_eq_four h]
    cases hg : goAtoi d with
    | none =>
      rw [hg] at hlit
      simp only [Option.isSome_none] at hlit
      constructor
      · rintro - ⟨t', p', j', d', hsp, hl, hr⟩
        injection hsp with h1 hsp
        injection hsp with h2 hsp
        injection hsp with h3 hsp
        injection hsp with h4 h5
        rw [← h4] at hl hr
        rw [hl, hr] at hlit
        simp at hlit
      · intro _
        rfl
    | some b =>
      rw [hg] at hlit
      simp only [Option.isSome_some] at hlit
      constructor
      · intro hcontra
        exact absurd hcontra (by simp)
      · intro hnot
        have hand := hlit.symm
        rw [Bool.and_eq_true] at hand
        exact absurd ⟨t, p, j, d, rfl, hand.1, hand.2⟩ hnot
  · have hP : ParseRunRef s = none := by unfold ParseRunRef; rw [h]
    simp [hP, h]

/-- Witness for C1: the malformed input `"bad"` (a single segment) is
rejected. -/
theorem ParseRunRef_none_iff_witness :
    ParseRunRef ("bad".toList) = none :=
  (ParseRunRef_none_iff ("bad".toList)).mpr (by
    rintro ⟨t, p, j, d, hsp, -⟩
    have h : splitOnColon ("bad".toList) = [['b', 'a', 'd']] := rfl
    rw [h] at hsp
    simp at hsp)

/-- C1 counterexample — the claim as stated is false: `"a:b:c:-5"` has a
negative fourth segment, so the claim requires a malformed-reference
error, but `ParseRunRef` accepts it (`strconv.Atoi` parses signed
integers and no segment is checked for emptiness). -/
theorem ParseRunRef_claim_counterexample :
    ¬(ParseRunRef ("a:b:c:-5".toList) = none ↔
      specWellFormedRunID ("a:b:c:-5".toList) = false) := by
  decide

/-- C3 — round-trip law: for non-empty colon-free components and a
non-negative build id in the domain of Go's 64-bit `int` (the type of
`BuildID`, so the whole domain the program can represent), parsing the
encoded identifier returns the original four values unchanged. -/
theorem parse_encode_roundtrip (t p j : List Char) (b : Int) (name : List Char)
    (ht : t ≠ [] ∧ ':' ∉ t) (hp : p ≠ [] ∧ ':' ∉ p) (hj : j ≠ [] ∧ ':' ∉ j)
    (hb : 0 ≤ b) (hb64 : b ≤ 2 ^ 63 - 1) :
    ParseRunRef (ConcourseRunRef.ID ⟨t, p, j, b, name⟩) =
      some ⟨t, p, j, b, []⟩ := by
  have hbn : b = ((b.toNat : Nat) : Int) := (Int.toNat_of_nonneg hb).symm
  have hint : intToChars b = natToChars b.toNat := by
    rw [hbn]; rfl
  have hID : ConcourseRunRef.ID ⟨t, p, j, b, name⟩ =
      t ++ ':' :: (p ++ ':' :: (j ++ ':' :: intToChars b)) := rfl
  have hsplit : splitOnColon (ConcourseRunRef.ID ⟨t, p, j, b, name⟩) =
      [t, p, j, natToChars b.toNat] := by
    rw [hID, hint]
    rw [splitOnColon_append _ ht.2, splitOnColon_append _ hp.2,
      splitOnColon_append _ hj.2,
      splitOnColon_no_colon (colon_not_mem_natToChars b.toNat)]
  have hb' : b.toNat < 2 ^ 63 := by omega
  rw [ParseRunRef_eq_four hsplit, goAtoi_natToChars b.toNat hb', ← hbn]

/-- Witness for C3 at `team="main"`, `pipeline="p"`, `job="j"`,
`build_id=42`. -/
theorem parse_encode_roundtrip_witness :
    ParseRunRef (ConcourseRunRef.ID
        ⟨"main".toList, "p".toList, "j".toList, 42, []⟩) =
      some ⟨"main".toList, "p".toList, "j".toList, 42, []⟩ :=
  parse_encode_roundtrip "main".toList "p".toList "j".toList 42 []
    (by decide) (by decide) (by decide) (by decide) (by decide)

/-- C2 (amended) — re-encoding the parsed reference reproduces the input
exactly for every string the codec accepts whose fourth component is in
the canonical form the encoder itself produces: unsigned decimal with no
leading zeros, denoting a value in the range of Go's 64-bit `int` (the
encoder, printing a `BuildID int`, can produce nothing else).
Non-canonical accepted inputs such as `"a:b:c:007"` are excluded by the
counterexample below. -/
theorem encode_decode_roundtrip (s t p j d : List Char) (n : Nat)
    (hsplit : splitOnColon s = [t, p, j, d]) (hd : d = natToChars n)
    (hn : n < 2 ^ 63) :
    Option.map ConcourseRunRef.ID (ParseRunRef s) = some s := by
  have hjoin : t ++ ':' :: (p ++ ':' :: (j ++ ':' :: d)) = s := by
    have := joinColon_splitOnColon s
    rw [hsplit] at this
    simpa [joinColon] using this
  rw [ParseRunRef_eq_four hsplit, hd, goAtoi_natToChars n hn]
  have hID : ConcourseRunRef.ID ⟨t, p, j, ((n : Nat) : Int), []⟩ =
      t ++ ':' :: (p ++ ':' :: (j ++ ':' :: natToChars n)) := rfl
  show some (ConcourseRunRef.ID ⟨t, p, j, ((n : Nat) : Int), []⟩) = some s
  rw [hID, ← hd, hjoin]

/-- Witness for C2 at the well-formed identifier `"main:p:j:42"`. -/
theorem encode_decode_roundtrip_witness :
    Option.map ConcourseRunRef.ID (ParseRunRef ("main:p:j:42".toList)) =
      some ("main:p:j:42".toList) :=
  encode_decode_roundtrip "main:p:j:42".toList "main".toList "p".toList
    "j".toList "42".toList 42 (by decide) (by decide) (by decide)

/-- C2 counterexample — the claim as stated is false: `"a:b:c:007"` is
accepted by the codec and its fourth component parses as the non-negative
integer 7, but re-encoding yields `"a:b:c:7"`, not the original string. -/
theorem encode_decode_counterexample :
    (ParseRunRef ("a:b:c:007".toList)).isSome = true ∧
    Option.map ConcourseRunRef.ID (ParseRunRef ("a:b:c:007".toList)) ≠
      some ("a:b:c:007".toList) := by
  decide

/-! ## Data model (`internal/models/models.go`) and build mapping
(`mapBuildToRun` / `mapStatus` from the concourse mapper file) -/

/-- Embedding of `models.RunStatus` (a fixed enumeration). -/
inductive RunStatus where
  | queued | running | succeeded | failed | canceled | errored | unknown
  deriving DecidableEq, Repr

/-- Embedding of `models.Run`; `time.Time` values are unix seconds, the
optional timestamps are `Option` mirroring the Go pointer fields. -/
structure Run where
  runID : List Char
  jobID : List Char
  status : RunStatus
  createdAt : Int
  startedAt : Option Int
  finishedAt : Option Int
  deriving DecidableEq, Repr

/-- Embedding of the Concourse `Build` JSON record. -/
structure Build where
  id : Int
  name : List Char
  status : List Char
  startTime : Int
  endTime : Int
  createTime : Int
  deriving DecidableEq, Repr

/-- Embedding of `mapStatus`: the fixed backend-status translation table
with `unknown` as the fallback. -/
def mapStatus (concourseStatus : List Char) : RunStatus :=
  if concourseStatus = "pending".toList then .queued
  else if concourseStatus = "started".toList then .running
  else if concourseStatus = "succeeded".toList then .succeeded
  else if concourseStatus = "failed".toList then .failed
  else if concourseStatus = "aborted".toList then .canceled
  else if concourseStatus = "errored".toList then .errored
  else .unknown

/-- Embedding of `mapBuildToRun`: `CreatedAt` is unconditionally
`time.Unix(CreateTime, 0)`; `StartedAt` / `FinishedAt` are set only for
strictly positive backend timestamps. -/
def mapBuildToRun (build : Build) (runRef : ConcourseRunRef) : Run :=
  { runID := runRef.ID
    jobID := []
    status := mapStatus build.status
    createdAt := build.createTime
    startedAt := if build.startTime > 0 then some build.startTime else none
    finishedAt := if build.endTime > 0 then some build.endTime else none }

/-- C6 (amended) — the optional timestamps behave as the claim states
(zero or negative `start_time` / `end_time` yield unset `started_at` /
`finished_at`, positive ones yield the set value), but `created_at` is
unconditionally populated from `create_time`, so a zero `create_time`
produces the epoch-zero instant rather than an unset field. -/
theorem mapBuildToRun_timestamps (b : Build) (ref : ConcourseRunRef) :
    (0 < b.startTime → (mapBuildToRun b ref).startedAt = some b.startTime) ∧
    (b.startTime ≤ 0 → (mapBuildToRun b ref).startedAt = none) ∧
    (0 < b.endTime → (mapBuildToRun b ref).finishedAt = some b.endTime) ∧
    (b.endTime ≤ 0 → (mapBuildToRun b ref).finishedAt = none) ∧
    (mapBuildToRun b ref).createdAt = b.createTime ∧
    (mapBuildToRun b ref).status = mapStatus b.status := by
  refine ⟨fun h => ?_, fun h => ?_, fun h => ?_, fun h => ?_, rfl, rfl⟩ <;>
    simp only [mapBuildToRun] <;> split <;> first | rfl | omega

/-- Witness for C6: the spec's scenario 2 build (`status="started"`,
`start_time=1000`, `end_time=0`) yields `started_at` set and
`finished_at` unset. -/
theorem mapBuildToRun_timestamps_witness :
    (mapBuildToRun ⟨42, [], "started".toList, 1000, 0, 5⟩
        ⟨"main".toList, "p".toList, "j".toList, 42, []⟩).startedAt =
      some 1000 ∧
    (mapBuildToRun ⟨42, [], "started".toList, 1000, 0, 5⟩
        ⟨"main".toList, "p".toList, "j".toList, 42, []⟩).finishedAt = none :=
  ⟨(mapBuildToRun_timestamps _ _).1 (by decide),
   (mapBuildToRun_timestamps _ _).2.2.2.1 (by decide)⟩

/-- C6 counterexample — a build record with `create_time = 0` is mapped
to a run whose `created_at` is the epoch-zero instant: a zero timestamp
that ends up as a set epoch-zero result field, contradicting the claim
that every zero timestamp becomes an unset field. -/
theorem mapBuildToRun_epoch_counterexample :
    (mapBuildToRun ⟨42, [], "started".toList, 1000, 0, 0⟩
        ⟨"main".toList, "p".toList, "j".toList, 42, []⟩).createdAt = 0 := by
  decide

/-! ## Error taxonomy (`parseError`) -/

/-- Embedding of the provider error values of `internal/provider/errors.go`
as they are distinguished by `parseError`. -/
inductive ProvErr where
  | runNotFound
  | unauthorized
  | unavailable
  | providerError (code : Nat) (message : List Char)
  deriving DecidableEq, Repr

/-- Embedding of the part of `http.Response` that `parseError` reads.
`jsonError` abstracts the Go-stdlib `json.Unmarshal` of the body: it is
`some msg` exactly when the body decodes as JSON whose `error` field is
the non-empty string `msg` (the decoding itself is outside the repo). -/
structure HttpResponse where
  statusCode : Nat
  body : List Char
  jsonError : Option (List Char)
  deriving DecidableEq, Repr

/-- Embedding of `parseError`: the Go `switch` on the status code. -/
def parseError (resp : HttpResponse) : ProvErr :=
  if resp.statusCode = 404 then .runNotFound
  else if resp.statusCode = 401 ∨ resp.statusCode = 403 then .unauthorized
  else if resp.statusCode = 502 ∨ resp.statusCode = 503 then .unavailable
  else
    match resp.jsonError with
    | some msg => .providerError resp.statusCode msg
    | none => .providerError resp.statusCode resp.body

/-- C5 (amended) — `parseError` maps 404 to the not-found kind, 401 and
403 to the unauthorized kind, exactly 502 and 503 to the unavailable
kind, and every other status — including other 5xx codes such as 500 —
to `ProviderError` carrying the backend's own status code. -/
theorem parseError_taxonomy (resp : HttpResponse) :
    (resp.statusCode = 404 → parseError resp = .runNotFound) ∧
    (resp.statusCode = 401 ∨ resp.statusCode = 403 →
      parseError resp = .unauthorized) ∧
    (resp.statusCode = 502 ∨ resp.statusCode = 503 →
      parseError resp = .unavailable) ∧
    (resp.statusCode ≠ 404 → resp.statusCode ≠ 401 → resp.statusCode ≠ 403 →
      resp.statusCode ≠ 502 → resp.statusCode ≠ 503 →
      ∃ msg, parseError resp = .providerError resp.statusCode msg) := by
  refine ⟨fun h => ?_, fun h => ?_, fun h => ?_,
    fun h404 h401 h403 h502 h503 => ?_⟩
  · simp [parseError, h]
  · rcases h with h | h <;> simp [parseError, h]
  · rcases h with h | h <;> simp [parseError, h]
  · cases hj : resp.jsonError with
    | none => exact ⟨resp.body, by simp [parseError, h404, h401, h403, h502, h503, hj]⟩
    | some msg => exact ⟨msg, by simp [parseError, h404, h401, h403, h502, h503, hj]⟩

/-- Witness for C5 at a 404 response and a 502 response. -/
theorem parseError_taxonomy_witness :
    parseError ⟨404, [], none⟩ = ProvErr.runNotFound ∧
    parseError ⟨502, [], none⟩ = ProvErr.unavailable :=
  ⟨(parseError_taxonomy ⟨404, [], none⟩).1 rfl,
   (parseError_taxonomy ⟨502, [], none⟩).2.2.1 (Or.inl rfl)⟩

/-- C5 counterexample — the claim says every 5xx status is generalized to
the unavailable kind, but a 500 response maps to `ProviderError{500}`:
only 502 and 503 reach the unavailable arm of the switch. -/
theorem parseError_500_counterexample :
    parseError ⟨500, [], none⟩ = ProvErr.providerError 500 [] ∧
    parseError ⟨500, [], none⟩ ≠ ProvErr.unavailable := by
  decide

/-! ## Event-stream relay (`parseConcourseEvent` and the
`StreamBuildEvents` copy loop body) -/

/-- Embedding of `parseConcourseEvent`: the Go function returns
`("", nil)` for an empty line and `("data: " + line + "\n\n", nil)`
otherwise; the error component is always nil. -/
def parseConcourseEvent (line : List Char) : List Char × Option ProvErr :=
  if line = [] then ([], none)
  else ("data: ".toList ++ line ++ "\n\n".toList, none)

/-- Embedding of the per-line body of the `StreamBuildEvents` copy loop:
a parse error skips the line, a non-empty transformed event is written to
the sink, an empty one is not. -/
def streamWritesForLine (line : List Char) : List (List Char) :=
  match parseConcourseEvent line with
  | (_, some _) => []
  | (event, none) => if event ≠ [] then [event] else []

/-- C10 — the per-line relay transformation never fails, writes exactly
the frame `"data: " + line + "\n\n"` for a non-empty line, and writes
nothing for an empty line. -/
theorem parseConcourseEvent_relay (line : List Char) :
    (parseConcourseEvent line).2 = none ∧
    (line ≠ [] →
      streamWritesForLine line = ["data: ".toList ++ line ++ "\n\n".toList]) ∧
    (line = [] → streamWritesForLine line = []) := by
  by_cases hl : line = [] <;>
    simp [parseConcourseEvent, streamWritesForLine, hl]

/-- Witness for C10 at the line `"hello"`. -/
theorem parseConcourseEvent_relay_witness :
    streamWritesForLine ("hello".toList) =
      ["data: ".toList ++ "hello".toList ++ "\n\n".toList] :=
  (parseConcourseEvent_relay ("hello".toList)).2.1 (by decide)

/-! ## Credential cache (`TokenManager`)
State of the Go struct and its operations, at a frozen instant `now`.
Network traffic (the token endpoint) is an explicit oracle. -/

/-- Mutable state of the Go `TokenManager` (the lock itself is modelled
by the atomicity of the operations, see the concurrent model below). -/
structure TMState where
  token : List Char
  tokenExpiry : Int
  refreshMargin : Int
  deriving DecidableEq, Repr

/-- Embedding of the Concourse token-endpoint response. -/
structure TokenResponse where
  accessToken : List Char
  expiresIn : Int
  deriving DecidableEq, Repr

/-- The fast-path validity test of `GetToken`:
`tm.token != "" && time.Now().Before(tm.tokenExpiry.Add(-tm.refreshMargin))`. -/
def tmValid (now : Int) (tm : TMState) : Bool :=
  decide (tm.token ≠ []) && decide (now < tm.tokenExpiry - tm.refreshMargin)

/-- Embedding of `InvalidateToken`: clears the token and the expiry. -/
def InvalidateToken (tm : TMState) : TMState :=
  { tm with token := [], tokenExpiry := 0 }

/-- State written by a successful `refreshToken` fetch:
`token = AccessToken`, `tokenExpiry = now + ExpiresIn`. -/
def refreshedTM (now : Int) (tm : TMState) (tr : TokenResponse) : TMState :=
  { tm with token := tr.accessToken, tokenExpiry := now + tr.expiresIn }

/-- Embedding of `GetToken` followed (when the fast path fails) by
`refreshToken`, for a single caller: at a frozen instant the double-check
re-evaluates the same condition, so the refresh path always performs the
fetch given by the oracle.  Returns the result, the new state, and the
number of token fetches performed. -/
def GetTokenSeq (now : Int) (tm : TMState) (fetch : Option TokenResponse) :
    Option (List Char) × TMState × Nat :=
  if tmValid now tm then (some tm.token, tm, 0)
  else
    match fetch with
    | none => (none, tm, 1)
    | some tr => (some tr.accessToken, refreshedTM now tm tr, 1)

/-- C8 — with a cached non-empty token whose expiry lies more than
`refresh_margin` in the future, `GetToken` returns the cached token,
performs zero fetches, and leaves the state unchanged. -/
theorem GetToken_cached_fast_path (now : Int) (tm : TMState)
    (fetch : Option TokenResponse) (htok : tm.token ≠ [])
    (hexp : now < tm.tokenExpiry - tm.refreshMargin) :
    GetTokenSeq now tm fetch = (some tm.token, tm, 0) := by
  have hv : tmValid now tm = true := by simp [tmValid, htok, hexp]
  simp [GetTokenSeq, hv]

/-- Witness for C8 at a cached token `"tok"` with expiry 100, margin 10,
current time 0. -/
theorem GetToken_cached_fast_path_witness :
    GetTokenSeq 0 ⟨"tok".toList, 100, 10⟩ none =
      (some ("tok".toList), ⟨"tok".toList, 100, 10⟩, 0) :=
  GetToken_cached_fast_path 0 ⟨"tok".toList, 100, 10⟩ none
    (by decide) (by decide)

/-! ## Backend client (`Client.doRequest`)
The HTTP transport is an oracle `doF` giving the response of the n-th
outbound attempt (`none` = transport error), and `fetchF` gives the
result of the n-th token fetch. -/

/-- Error outcomes of `doRequest` (the wrapped Go errors). -/
inductive ReqError where
  | getTokenFailed
  | refreshTokenFailed
  | transport
  deriving DecidableEq, Repr

/-- Observable outcome of one `doRequest` call: the returned value, the
final token-manager state, the bearer token used by each outbound HTTP
attempt in order, and the number of token fetches. -/
structure DoRequestTrace where
  result : Except ReqError HttpResponse
  finalTM : TMState
  attempts : List (List Char)
  fetchCount : Nat
  deriving Repr

/-- Embedding of `Client.doRequest`: get a token, issue the call, and on
a 401 invalidate the cache, fetch a fresh token and retry exactly once,
returning whatever the retry produced. -/
def doRequest (now : Int) (tm0 : TMState)
    (fetchF : Nat → Option TokenResponse)
    (doF : Nat → Option HttpResponse) : DoRequestTrace :=
  match GetTokenSeq now tm0 (fetchF 0) with
  | (none, tm1, f1) => ⟨.error .getTokenFailed, tm1, [], f1⟩
  | (some token, tm1, f1) =>
    match doF 0 with
    | none => ⟨.error .transport, tm1, [token], f1⟩
    | some resp =>
      if resp.statusCode = 401 then
        match GetTokenSeq now (InvalidateToken tm1) (fetchF f1) with
        | (none, tm3, f2) =>
          ⟨.error .refreshTokenFailed, tm3, [token], f1 + f2⟩
        | (some token2, tm3, f2) =>
          match doF 1 with
          | none => ⟨.error .transport, tm3, [token, token2], f1 + f2⟩
          | some resp2 => ⟨.ok resp2, tm3, [token, token2], f1 + f2⟩
      else ⟨.ok resp, tm1, [token], f1⟩

/-- C4 — a first 401 response invalidates the cached token, fetches a
fresh one, and retries exactly once (two HTTP attempts in total, the
second carrying the freshly fetched token, one token fetch); the retry's
response is returned as-is, and if it is again a 401 the callers'
`parseError` turns it into the unauthorized kind — there is no third
attempt. -/
theorem doRequest_401_retry (now : Int) (tm0 : TMState)
    (fetchF : Nat → Option TokenResponse) (doF : Nat → Option HttpResponse)
    (r1 r2 : HttpResponse) (tr : TokenResponse)
    (hvalid : tmValid now tm0 = true)
    (hdo0 : doF 0 = some r1) (h401 : r1.statusCode = 401)
    (hfetch : fetchF 0 = some tr) (hdo1 : doF 1 = some r2) :
    (doRequest now tm0 fetchF doF).attempts = [tm0.token, tr.accessToken] ∧
    (doRequest now tm0 fetchF doF).result = .ok r2 ∧
    (doRequest now tm0 fetchF doF).fetchCount = 1 ∧
    (r2.statusCode = 401 → parseError r2 = .unauthorized) := by
  have h1 : GetTokenSeq now tm0 (fetchF 0) = (some tm0.token, tm0, 0) := by
    simp [GetTokenSeq, hvalid]
  have hinv : tmValid now (InvalidateToken tm0) = false := by
    simp [tmValid, InvalidateToken]
  have h2 : GetTokenSeq now (InvalidateToken tm0) (fetchF 0) =
      (some tr.accessToken, refreshedTM now (InvalidateToken tm0) tr, 1) := by
    simp [GetTokenSeq, hinv, hfetch]
  have hres : doRequest now tm0 fetchF doF =
      ⟨.ok r2, refreshedTM now (InvalidateToken tm0) tr,
       [tm0.token, tr.accessToken], 0 + 1⟩ := by
    unfold doRequest
    rw [h1]
    simp only [hdo0, h2, hdo1, if_pos h401]
  refine ⟨by rw [hres], by rw [hres], by rw [hres], fun hr => ?_⟩
  simp [parseError, hr]

/-- Witness for C4: a client with valid cached token `"t0"`, a backend
that answers 401 to every attempt, and a token endpoint issuing `"t1"`. -/
theorem doRequest_401_retry_witness :
    (doRequest 0 ⟨"t0".toList, 100, 0⟩ (fun _ => some ⟨"t1".toList, 50⟩)
        (fun _ => some ⟨401, [], none⟩)).attempts =
      ["t0".toList, "t1".toList] ∧
    (doRequest 0 ⟨"t0".toList, 100, 0⟩ (fun _ => some ⟨"t1".toList, 50⟩)
        (fun _ => some ⟨401, [], none⟩)).result = .ok ⟨401, [], none⟩ ∧
    (doRequest 0 ⟨"t0".toList, 100, 0⟩ (fun _ => some ⟨"t1".toList, 50⟩)
        (fun _ => some ⟨401, [], none⟩)).fetchCount = 1 ∧
    parseError ⟨401, [], none⟩ = .unauthorized := by
  have h := doRequest_401_retry 0 ⟨"t0".toList, 100, 0⟩
    (fun _ => some ⟨"t1".toList, 50⟩) (fun _ => some ⟨401, [], none⟩)
    ⟨401, [], none⟩ ⟨401, [], none⟩ ⟨"t1".toList, 50⟩
    (by decide) rfl rfl rfl rfl
  exact ⟨h.1, h.2.1, h.2.2.1, h.2.2.2 rfl⟩

/-! ## Service layer (`internal/service`)
The provider is an oracle; the second component of each result counts
provider invocations. -/

/-- Service-level error kinds as the handlers distinguish them. -/
inductive SvcError where
  | jobNotFound
  | runNotFound
  | wrapped (e : ProvErr)
  deriving DecidableEq, Repr

/-- Embedding of `Service.GetRun`: parse the public run id (malformed →
`ErrRunNotFound`, provider untouched), then delegate and translate
`provider.ErrRunNotFound`. -/
def Service.GetRun (provGetRun : ConcourseRunRef → Except ProvErr Run)
    (runID : List Char) : Except SvcError Run × Nat :=
  match ParseRunRef runID with
  | none => (.error .runNotFound, 0)
  | some ref =>
    match provGetRun ref with
    | .error e =>
      if e = .runNotFound then (.error .runNotFound, 1)
      else (.error (.wrapped e), 1)
    | .ok run => (.ok run, 1)

/-- Embedding of `Service.StreamRunEvents`: parse the public run id
(malformed → `ErrRunNotFound`, provider untouched), then delegate. -/
def Service.StreamRunEvents (provStream : ConcourseRunRef → Option ProvErr)
    (runID : List Char) : Option SvcError × Nat :=
  match ParseRunRef runID with
  | none => (some .runNotFound, 0)
  | some ref =>
    match provStream ref with
    | some e => (some (.wrapped e), 1)
    | none => (none, 1)

/-- Embedding of `Service.CancelRun`: parse the public run id (malformed
→ `ErrRunNotFound`, provider untouched), then delegate. -/
def Service.CancelRun (provCancel : ConcourseRunRef → Option ProvErr)
    (runID : List Char) : Option SvcError × Nat :=
  match ParseRunRef runID with
  | none => (some .runNotFound, 0)
  | some ref =>
    match provCancel ref with
    | some e => (some (.wrapped e), 1)
    | none => (none, 1)

/-- C9 — every run-id string the codec rejects makes `GetRun`,
`StreamRunEvents` and `CancelRun` return the run-not-found kind with the
provider never invoked. -/
theorem service_malformed_runID (provG : ConcourseRunRef → Except ProvErr Run)
    (provS provC : ConcourseRunRef → Option ProvErr) (runID : List Char)
    (hbad : ParseRunRef runID = none) :
    Service.GetRun provG runID = (.error .runNotFound, 0) ∧
    Service.StreamRunEvents provS runID = (some .runNotFound, 0) ∧
    Service.CancelRun provC runID = (some .runNotFound, 0) := by
  unfold Service.GetRun Service.StreamRunEvents Service.CancelRun
  rw [hbad]
  exact ⟨rfl, rfl, rfl⟩

/-- Witness for C9 at the spec's scenario 3 input `"bad-id"` (the
provider oracles answer arbitrarily; they are never consulted). -/
theorem service_malformed_runID_witness :
    Service.GetRun (fun _ => .error .unavailable) ("bad-id".toList) =
      (.error .runNotFound, 0) ∧
    Service.StreamRunEvents (fun _ => none) ("bad-id".toList) =
      (some .runNotFound, 0) ∧
    Service.CancelRun (fun _ => none) ("bad-id".toList) =
      (some .runNotFound, 0) :=
  service_malformed_runID (fun _ => .error .unavailable) (fun _ => none)
    (fun _ => none) ("bad-id".toList) (by decide)

/-! ## Concurrent `GetToken` (C7)
Interleaving model of N goroutines calling `TokenManager.GetToken` at a
frozen instant.  The `sync.RWMutex` makes the fast-path read and the
whole `refreshToken` critical section atomic, so each thread contributes
at most two atomic actions: the `RLock`-protected fast-path check, and
the `Lock`-protected double-check-then-fetch.  A schedule is an arbitrary
list of thread indices; each occurrence runs the named thread's next
pending atomic action. -/

/-- Progress of one goroutine through `GetToken`: before the fast-path
check, waiting on the write lock, or finished with a result. -/
inductive Phase where
  | start
  | needRefresh
  | done (result : List Char)
  deriving DecidableEq, Repr

/-- Shared state plus per-thread control state. -/
structure Sys where
  tm : TMState
  fetchCount : Nat
  threads : List Phase
  deriving Repr

/-- One atomic action of a thread in phase `ph`: the fast-path read
returns the cached token or falls through to the refresh path; the
refresh critical section re-checks validity (double-checked locking) and
fetches only if the cached token is still stale. -/
def stepPhase (now : Int) (fetchF : Nat → TokenResponse) (tm : TMState)
    (fc : Nat) : Phase → Phase × TMState × Nat
  | .start =>
    if tmValid now tm then (.done tm.token, tm, fc)
    else (.needRefresh, tm, fc)
  | .needRefresh =>
    if tmValid now tm then (.done tm.token, tm, fc)
    else (.done (fetchF fc).accessToken, refreshedTM now tm (fetchF fc), fc + 1)
  | .done r => (.done r, tm, fc)

/-- Runs the next pending atomic action of thread `i` (no-op for an
out-of-range index or a finished thread). -/
def stepSys (now : Int) (fetchF : Nat → TokenResponse) (s : Sys) (i : Nat) :
    Sys :=
  match s.threads[i]? with
  | none => s
  | some ph =>
    let t := stepPhase now fetchF s.tm s.fetchCount ph
    ⟨t.2.1, t.2.2, s.threads.set i t.1⟩

/-- Executes a schedule (a list of thread indices) from a state. -/
def runSched (now : Int) (fetchF : Nat → TokenResponse) :
    List Nat → Sys → Sys
  | [], s => s
  | i :: rest, s => runSched now fetchF rest (stepSys now fetchF s i)

/-- Reachable-state invariant for an initially stale cache: either no
fetch has happened yet, the shared state is untouched and no thread has
finished; or exactly one fetch has happened, the shared state holds the
first fetched token, and every finished thread got that token. -/
def SysInv (now : Int) (tm0 : TMState) (fetchF : Nat → TokenResponse)
    (s : Sys) : Prop :=
  (s.fetchCount = 0 ∧ s.tm = tm0 ∧
    ∀ ph ∈ s.threads, ∀ r, ph ≠ Phase.done r) ∨
  (s.fetchCount = 1 ∧ s.tm = refreshedTM now tm0 (fetchF 0) ∧
    ∀ ph ∈ s.threads, ∀ r, ph = Phase.done r → r = (fetchF 0).accessToken)

theorem stepSys_inv (now : Int) (tm0 : TMState)
    (fetchF : Nat → TokenResponse)
    (h0 : tmValid now tm0 = false)
    (hfresh : tmValid now (refreshedTM now tm0 (fetchF 0)) = true)
    (s : Sys) (i : Nat) (hinv : SysInv now tm0 fetchF s) :
    SysInv now tm0 fetchF (stepSys now fetchF s i) := by
  cases hth : s.threads[i]? with
  | none => simpa [stepSys, hth] using hinv
  | some ph =>
    have hmem : ph ∈ s.threads := List.getElem?_mem hth
    rcases hinv with ⟨hfc, htm, hph⟩ | ⟨hfc, htm, hph⟩
    · cases ph with
      | start =>
        have hv : tmValid now s.tm = false := by rw [htm]; exact h0
        simp only [stepSys, hth, stepPhase, hv, Bool.false_eq_true, if_false]
        refine Or.inl ⟨hfc, htm, ?_⟩
        intro ph' hph' r
        rcases List.mem_or_eq_of_mem_set hph' with hin | rfl
        · exact hph ph' hin r
        · simp
      | needRefresh =>
        have hv : tmValid now s.tm = false := by rw [htm]; exact h0
        simp only [stepSys, hth, stepPhase, hv, Bool.false_eq_true, if_false]
        refine Or.inr ⟨by simp [hfc], by simp [hfc, htm], ?_⟩
        intro ph' hph' r heq
        rcases List.mem_or_eq_of_mem_set hph' with hin | rfl
        · exact absurd heq (hph ph' hin r)
        · rw [hfc] at heq
          injection heq with h'
          rw [← h']
      | done r => exact absurd rfl (hph _ hmem r)
    · have hv : tmValid now s.tm = true := by rw [htm]; exact hfresh
      have htoken : s.tm.token = (fetchF 0).accessToken := by rw [htm]; rfl
      cases ph with
      | start =>
        simp only [stepSys, hth, stepPhase, hv, if_true]
        refine Or.inr ⟨hfc, htm, ?_⟩
        intro ph' hph' r heq
        rcases List.mem_or_eq_of_mem_set hph' with hin | rfl
        · exact hph ph' hin r heq
        · injection heq with h'
          rw [← h', htoken]
      | needRefresh =>
        simp only [stepSys, hth, stepPhase, hv, if_true]
        refine Or.inr ⟨hfc, htm, ?_⟩
        intro ph' hph' r heq
        rcases List.mem_or_eq_of_mem_set hph' with hin | rfl
        · exact hph ph' hin r heq
        · injection heq with h'
          rw [← h', htoken]
      | done r =>
        simp only [stepSys, hth, stepPhase]
        refine Or.inr ⟨hfc, htm, ?_⟩
        intro ph' hph' r' heq
        rcases List.mem_or_eq_of_mem_set hph' with hin | rfl
        · exact hph ph' hin r' heq
        · injection heq with h'
          rw [← h']
          exact hph _ hmem r rfl

theorem runSched_inv (now : Int) (tm0 : TMState)
    (fetchF : Nat → TokenResponse)
    (h0 : tmValid now tm0 = false)
    (hfresh : tmValid now (refreshedTM now tm0 (fetchF 0)) = true)
    (sched : List Nat) (s : Sys) (hinv : SysInv now tm0 fetchF s) :
    SysInv now tm0 fetchF (runSched now fetchF sched s) := by
  induction sched generalizing s with
  | nil => exact hinv
  | cons i rest ih =>
    exact ih _ (stepSys_inv now tm0 fetchF h0 hfresh s i hinv)

/-- C7 — starting from a stale cached credential, under every
interleaving of any number of concurrent `GetToken` callers at most one
underlying token fetch happens, and every caller that finished received
exactly the one freshly fetched token (with the fetch count then equal
to one). -/
theorem GetToken_concurrent_single_fetch (now : Int) (tm0 : TMState)
    (fetchF : Nat → TokenResponse) (n : Nat) (sched : List Nat)
    (hexpired : tmValid now tm0 = false)
    (htok : (fetchF 0).accessToken ≠ [])
    (hmargin : tm0.refreshMargin < (fetchF 0).expiresIn) :
    (runSched now fetchF sched ⟨tm0, 0, List.replicate n .start⟩).fetchCount
        ≤ 1 ∧
    ∀ ph ∈ (runSched now fetchF sched
        ⟨tm0, 0, List.replicate n .start⟩).threads, ∀ r, ph = Phase.done r →
      r = (fetchF 0).accessToken ∧
      (runSched now fetchF sched
        ⟨tm0, 0, List.replicate n .start⟩).fetchCount = 1 := by
  have hfresh : tmValid now (refreshedTM now tm0 (fetchF 0)) = true := by
    simp only [tmValid, refreshedTM, Bool.and_eq_true, decide_eq_true_eq]
    exact ⟨htok, by omega⟩
  have hinit : SysInv now tm0 fetchF ⟨tm0, 0, List.replicate n .start⟩ := by
    refine Or.inl ⟨rfl, rfl, ?_⟩
    intro ph hph r
    rw [List.eq_of_mem_replicate hph]
    simp
  have hfinal := runSched_inv now tm0 fetchF hexpired hfresh sched _ hinit
  rcases hfinal with ⟨hfc, -, hph⟩ | ⟨hfc, -, hph⟩
  · refine ⟨by omega, ?_⟩
    intro ph hmem r heq
    exact absurd heq (hph ph hmem r)
  · refine ⟨by omega, ?_⟩
    intro ph hmem r heq
    exact ⟨hph ph hmem r heq, hfc⟩

/-- Witness for C7: two goroutines, an interleaved schedule, an expired
empty cache, and a token endpoint issuing `"t1"` with 100 s validity. -/
theorem GetToken_concurrent_single_fetch_witness :
    (runSched 0 (fun _ => ⟨"t1".toList, 100⟩) [0, 1, 0, 1]
        ⟨⟨[], 0, 0⟩, 0, List.replicate 2 .start⟩).fetchCount ≤ 1 ∧
    "t1".toList = "t1".toList ∧
    (runSched 0 (fun _ => ⟨"t1".toList, 100⟩) [0, 1, 0, 1]
        ⟨⟨[], 0, 0⟩, 0, List.replicate 2 .start⟩).fetchCount = 1 :=
  ⟨(GetToken_concurrent_single_fetch 0 ⟨[], 0, 0⟩
      (fun _ => ⟨"t1".toList, 100⟩) 2 [0, 1, 0, 1]
      (by decide) (by decide) (by decide)).1,
   (GetToken_concurrent_single_fetch 0 ⟨[], 0, 0⟩
      (fun _ => ⟨"t1".toList, 100⟩) 2 [0, 1, 0, 1]
      (by decide) (by decide) (by decide)).2
     (Phase.done ("t1".toList)) (by decide) ("t1".toList) rfl⟩

end SimpleCI
